import Mathlib

/-!
# Verification of `slippy_map_tilenames` (src/src/lib.rs)

Shallow embedding of the four public functions of the crate:

* `lonlat2tile (lon lat : f64) (zoom : u8) : u32 × u32`
* `tile2lonlat (x y : u32) (zoom : u8) : f64 × f64`
* `zoom_in (x y : u32)`, `zoom_out (x y : u32)`

Modelling choices:

* `u32`/`u8` values are `ℕ`; where the Rust code can overflow a `u32`
  (the doublings in `zoom_in`) the wrap-around is written explicitly as
  `% 2^32`, matching release-mode two's-complement wrapping.
* `f64` values are modelled by the type `FP` below: `nan`, signed
  infinities, and finite values carrying an exact real payload.
  Arithmetic on finite payloads is exact real arithmetic (the usual
  idealization: rounding error and overflow of finite intermediates are
  not modelled; signed zeros and subnormals are identified with `0`).
  Special values follow the IEEE-754 rules the Rust operators and the
  libm functions `tan`, `cos`, `ln`, `sinh`, `atan` obey on `f64`:
  NaN propagates, `tan`/`cos` of an infinity is NaN, `ln` of a negative
  number is NaN and `ln 0 = -∞`, `sinh`/`atan` preserve the sign of an
  infinity with `atan (±∞) = ±π/2`.
* The cast `expr as u32` of Rust (saturating since Rust 1.45) is
  `fp2u32`: NaN and negative values go to `0`, values at or above
  `2^32 - 1` (and `+∞`) go to `2^32 - 1`, other finite values are
  truncated toward zero.
* `2f64.powf(zoom as f64)` is exact on `f64` for every `zoom : u8`, so
  it is embedded as the exact real `2 ^ zoom`; likewise
  `to_radians`/`to_degrees` multiply by the exact constants `π / 180`
  and `180 / π`, and `x as f64` on a `u32` is the exact real `(x : ℝ)`.
-/

namespace SlippyMap

/-- Model of an IEEE-754 double: NaN, an infinity (`true` = positive),
or a finite value with an exact real payload. -/
inductive FP where
  | nan : FP
  | inf : Bool → FP
  | fin : ℝ → FP

namespace FP

/-- IEEE negation. -/
def neg : FP → FP
  | nan => nan
  | inf s => inf (!s)
  | fin a => fin (-a)

/-- IEEE addition (finite part exact). -/
noncomputable def add : FP → FP → FP
  | nan, _ => nan
  | _, nan => nan
  | inf s, inf t => if s = t then inf s else nan
  | inf s, fin _ => inf s
  | fin _, inf t => inf t
  | fin a, fin b => fin (a + b)

/-- IEEE subtraction, `a - b = a + (-b)`. -/
noncomputable def sub (a b : FP) : FP := add a (neg b)

/-- IEEE multiplication (finite part exact); `±∞ * 0` is NaN. -/
noncomputable def mul : FP → FP → FP
  | nan, _ => nan
  | _, nan => nan
  | inf s, inf t => inf (s == t)
  | inf s, fin b => if b = 0 then nan else if 0 < b then inf s else inf (!s)
  | fin a, inf t => if a = 0 then nan else if 0 < a then inf t else inf (!t)
  | fin a, fin b => fin (a * b)

/-- IEEE division (finite part exact); `x / 0` is a signed infinity for
`x ≠ 0` (the zero is treated as `+0`), `0 / 0` and `∞ / ∞` are NaN,
and a finite value divided by an infinity is `0`. -/
noncomputable def div : FP → FP → FP
  | nan, _ => nan
  | _, nan => nan
  | inf _, inf _ => nan
  | inf s, fin b => if 0 ≤ b then inf s else inf (!s)
  | fin _, inf _ => fin 0
  | fin a, fin b =>
      if b = 0 then (if a = 0 then nan else if 0 < a then inf true else inf false)
      else fin (a / b)

/-- libm `tan`: NaN on NaN and on infinities, exact real tangent on
finite values. -/
noncomputable def tan : FP → FP
  | nan => nan
  | inf _ => nan
  | fin r => fin (Real.tan r)

/-- libm `cos`: NaN on NaN and on infinities, exact real cosine on
finite values. -/
noncomputable def cos : FP → FP
  | nan => nan
  | inf _ => nan
  | fin r => fin (Real.cos r)

/-- libm `ln`: NaN on NaN and on negative values, `-∞` at `0`,
`+∞` at `+∞`, exact real logarithm on positive finite values. -/
noncomputable def ln : FP → FP
  | nan => nan
  | inf s => if s then inf true else nan
  | fin r => if r < 0 then nan else if r = 0 then inf false else fin (Real.log r)

/-- libm `sinh`: preserves NaN and infinities, exact real `sinh` on
finite values. -/
noncomputable def sinh : FP → FP
  | nan => nan
  | inf s => inf s
  | fin r => fin (Real.sinh r)

/-- libm `atan`: total; `atan (±∞) = ±π/2`, exact real `arctan` on
finite values. -/
noncomputable def atan : FP → FP
  | nan => nan
  | inf s => fin (if s then Real.pi / 2 else -(Real.pi / 2))
  | fin r => fin (Real.arctan r)

/-- `f64::to_radians`: multiplication by `π / 180`. -/
noncomputable def toRadians (a : FP) : FP := mul a (fin (Real.pi / 180))

/-- `f64::to_degrees`: multiplication by `180 / π`. -/
noncomputable def toDegrees (a : FP) : FP := mul a (fin (180 / Real.pi))

end FP

/-- Rust's saturating cast `f64 as u32`: NaN and negative values give
`0`, too-large values and `+∞` give `u32::MAX = 2^32 - 1`, other finite
values are truncated toward zero. -/
noncomputable def fp2u32 : FP → ℕ
  | .nan => 0
  | .inf s => if s then 2 ^ 32 - 1 else 0
  | .fin r => min ⌊r⌋₊ (2 ^ 32 - 1)

/-- `pub fn lonlat2tile(lon: f64, lat: f64, zoom: u8) -> (u32, u32)`:

    let lat_rad = lat.to_radians();
    let zz: f64 = 2f64.powf(zoom as f64) as f64;
    let x: u32 = ( (lon + 180f64) / 360f64 * zz ) as u32;
    let y: u32 = (( 1f64 - ( lat_rad.tan() + ( 1f64 / lat_rad.cos() ) ).ln() / PI )  / 2f64 * zz ) as u32;
    (x, y)
-/
noncomputable def lonlat2tile (lon lat : FP) (zoom : ℕ) : ℕ × ℕ :=
  let lat_rad := FP.toRadians lat
  let zz : FP := .fin ((2 : ℝ) ^ zoom)
  let x : ℕ := fp2u32 (FP.mul (FP.div (FP.add lon (.fin 180)) (.fin 360)) zz)
  let y : ℕ := fp2u32 (FP.mul (FP.div
      (FP.sub (.fin 1)
        (FP.div (FP.ln (FP.add (FP.tan lat_rad) (FP.div (.fin 1) (FP.cos lat_rad))))
          (.fin Real.pi)))
      (.fin 2)) zz)
  (x, y)

/-- `pub fn tile2lonlat(x: u32, y: u32, zoom: u8) -> (f64, f64)`:

    let zz: f64 = 2f64.powf(zoom as f64) as f64;
    let lon: f64 = x as f64 / zz * 360f64 - 180f64;
    let lat: f64 = ( ( PI * (1f64 - 2f64 * y as f64 / zz) ).sinh() ).atan().to_degrees();
    (lon, lat)
-/
noncomputable def tile2lonlat (x y : ℕ) (zoom : ℕ) : FP × FP :=
  let zz : FP := .fin ((2 : ℝ) ^ zoom)
  let lon := FP.sub (FP.mul (FP.div (.fin (x : ℝ)) zz) (.fin 360)) (.fin 180)
  let lat := FP.toDegrees (FP.atan (FP.sinh
      (FP.mul (.fin Real.pi) (FP.sub (.fin 1) (FP.div (FP.mul (.fin 2) (.fin (y : ℝ))) zz)))))
  (lon, lat)

/-- `pub fn zoom_in(x: u32, y: u32)`: the doublings `2 * x`, `2 * y` and
the increments are `u32` arithmetic, hence wrap modulo `2^32`. -/
def zoom_in (x y : ℕ) : (ℕ × ℕ) × (ℕ × ℕ) × (ℕ × ℕ) × (ℕ × ℕ) :=
  let x2 := 2 * x % 2 ^ 32
  let y2 := 2 * y % 2 ^ 32
  ((x2, y2), ((x2 + 1) % 2 ^ 32, y2), (x2, (y2 + 1) % 2 ^ 32),
    ((x2 + 1) % 2 ^ 32, (y2 + 1) % 2 ^ 32))

/-- `pub fn zoom_out(x: u32, y: u32) -> (u32, u32)`: `( x / 2, y / 2)`
with `u32` (floor) division. -/
def zoom_out (x y : ℕ) : ℕ × ℕ := (x / 2, y / 2)

/-- Claim C6: for every tile `(x, y)`, `zoom_out x y` returns
`(x / 2, y / 2)` using integer floor division; the origin tile is a
fixed point, `zoom_out 0 0 = (0, 0)`, and `zoom_out 5 7 = (2, 3)`. -/
theorem zoom_out_floor_div (x y : ℕ) :
    zoom_out x y = (x / 2, y / 2) ∧ zoom_out 0 0 = (0, 0) ∧ zoom_out 5 7 = (2, 3) :=
  ⟨rfl, rfl, rfl⟩

/-- Claim C4, counterexample: at `x = 2^31` the doubling in `zoom_in`
wraps modulo `2^32`, so the first child of `zoom_in (2^31) 0` is `(0, 0)`
and `zoom_out` maps it to `(0, 0)`, not back to `(2^31, 0)`. -/
theorem zoom_out_zoom_in_fails_at_wrap :
    ¬ zoom_out (zoom_in (2 ^ 31) 0).1.1 (zoom_in (2 ^ 31) 0).1.2 = (2 ^ 31, 0) := by
  decide

/-- Claim C4 (amended): for every tile `(x, y)` with `x, y < 2^31`, so
that the `u32` doublings in `zoom_in` do not wrap, each of the four
child tiles returned by `zoom_in x y`, when passed to `zoom_out`,
yields back exactly `(x, y)`. -/
theorem zoom_out_of_zoom_in (x y : ℕ) (hx : x < 2 ^ 31) (hy : y < 2 ^ 31) :
    zoom_out (zoom_in x y).1.1 (zoom_in x y).1.2 = (x, y) ∧
    zoom_out (zoom_in x y).2.1.1 (zoom_in x y).2.1.2 = (x, y) ∧
    zoom_out (zoom_in x y).2.2.1.1 (zoom_in x y).2.2.1.2 = (x, y) ∧
    zoom_out (zoom_in x y).2.2.2.1 (zoom_in x y).2.2.2.2 = (x, y) := by
  have h31 : (2 : ℕ) ^ 31 = 2147483648 := by norm_num
  rw [h31] at hx hy
  simp only [zoom_in, zoom_out, Prod.mk.injEq, show (2 : ℕ) ^ 32 = 4294967296 by norm_num]
  omega

/-- Witness for the amended claim C4, at the concrete tile `(1, 1)`. -/
theorem zoom_out_of_zoom_in_witness :
    zoom_out (zoom_in 1 1).1.1 (zoom_in 1 1).1.2 = (1, 1) ∧
    zoom_out (zoom_in 1 1).2.1.1 (zoom_in 1 1).2.1.2 = (1, 1) ∧
    zoom_out (zoom_in 1 1).2.2.1.1 (zoom_in 1 1).2.2.1.2 = (1, 1) ∧
    zoom_out (zoom_in 1 1).2.2.2.1 (zoom_in 1 1).2.2.2.2 = (1, 1) :=
  zoom_out_of_zoom_in 1 1 (by decide) (by decide)

/-- Claim C5, counterexample: at `x = 2^31` the children of
`zoom_in (2^31) 0` are not `((2·2^31, 0), ...)`: the `u32` doubling
wraps to `0`. -/
theorem zoom_in_formula_fails_at_wrap :
    ¬ zoom_in (2 ^ 31) 0 =
        ((2 * 2 ^ 31, 2 * 0), (2 * 2 ^ 31 + 1, 2 * 0), (2 * 2 ^ 31, 2 * 0 + 1),
          (2 * 2 ^ 31 + 1, 2 * 0 + 1)) := by
  decide

/-- Claim C5 (amended): for every tile `(x, y)` with `x, y < 2^31`, so
that the `u32` doublings do not wrap, `zoom_in x y` returns the four
children `((2x, 2y), (2x+1, 2y), (2x, 2y+1), (2x+1, 2y+1))` in
top-left, top-right, bottom-left, bottom-right order; in particular
`zoom_in 1 1 = ((2,2), (3,2), (2,3), (3,3))`. -/
theorem zoom_in_children (x y : ℕ) (hx : x < 2 ^ 31) (hy : y < 2 ^ 31) :
    zoom_in x y =
      ((2 * x, 2 * y), (2 * x + 1, 2 * y), (2 * x, 2 * y + 1), (2 * x + 1, 2 * y + 1)) ∧
    zoom_in 1 1 = ((2, 2), (3, 2), (2, 3), (3, 3)) := by
  constructor
  · have h31 : (2 : ℕ) ^ 31 = 2147483648 := by norm_num
    rw [h31] at hx hy
    simp only [zoom_in, Prod.mk.injEq, show (2 : ℕ) ^ 32 = 4294967296 by norm_num]
    omega
  · decide

/-- Witness for the amended claim C5, at the concrete tile `(1, 1)`. -/
theorem zoom_in_children_witness :
    zoom_in 1 1 =
      ((2 * 1, 2 * 1), (2 * 1 + 1, 2 * 1), (2 * 1, 2 * 1 + 1), (2 * 1 + 1, 2 * 1 + 1)) ∧
    zoom_in 1 1 = ((2, 2), (3, 2), (2, 3), (3, 3)) :=
  zoom_in_children 1 1 (by decide) (by decide)

/-- Claim C8, counterexample: the doubling in `zoom_in` does lose
information on the full `u32` range: the distinct tiles `(2^31, 0)` and
`(0, 0)` have exactly the same four children, because `2 * 2^31` wraps
to `0` in `u32` arithmetic. -/
theorem zoom_in_loses_information_at_wrap :
    zoom_in (2 ^ 31) 0 = zoom_in 0 0 ∧ (2 ^ 31 : ℕ) ≠ 0 := by
  decide

/-- Claim C8 (amended): for tiles with `x, y < 2^31` the doublings
`2x`, `2x+1`, `2y`, `2y+1` in `zoom_in` do not overflow `u32`, so no
information is lost: `zoom_in` is injective on this domain. -/
theorem zoom_in_no_information_loss (x y u v : ℕ) (hx : x < 2 ^ 31) (hy : y < 2 ^ 31)
    (hu : u < 2 ^ 31) (hv : v < 2 ^ 31) (h : zoom_in x y = zoom_in u v) :
    x = u ∧ y = v := by
  have h31 : (2 : ℕ) ^ 31 = 2147483648 := by norm_num
  rw [h31] at hx hy hu hv
  simp only [zoom_in, Prod.mk.injEq, show (2 : ℕ) ^ 32 = 4294967296 by norm_num] at h
  omega

/-- Witness for the amended claim C8, at the concrete tiles `(1, 2)`. -/
theorem zoom_in_no_information_loss_witness : (1 : ℕ) = 1 ∧ (2 : ℕ) = 2 :=
  zoom_in_no_information_loss 1 2 1 2 (by decide) (by decide) (by decide) (by decide) rfl

theorem FP.add_fin_fin (a b : ℝ) : FP.add (.fin a) (.fin b) = .fin (a + b) := rfl

theorem FP.sub_fin_fin (a b : ℝ) : FP.sub (.fin a) (.fin b) = .fin (a - b) := by
  simp [FP.sub, FP.neg, FP.add, sub_eq_add_neg]

theorem FP.mul_fin_fin (a b : ℝ) : FP.mul (.fin a) (.fin b) = .fin (a * b) := rfl

theorem FP.div_fin_fin (a b : ℝ) (hb : b ≠ 0) : FP.div (.fin a) (.fin b) = .fin (a / b) := by
  simp [FP.div, hb]

theorem FP.ln_fin_pos (r : ℝ) (hr : 0 < r) : FP.ln (.fin r) = .fin (Real.log r) := by
  simp [FP.ln, not_lt.mpr hr.le, hr.ne']

theorem FP.tan_fin (r : ℝ) : FP.tan (.fin r) = .fin (Real.tan r) := rfl

theorem FP.cos_fin (r : ℝ) : FP.cos (.fin r) = .fin (Real.cos r) := rfl

theorem FP.sinh_fin (r : ℝ) : FP.sinh (.fin r) = .fin (Real.sinh r) := rfl

theorem FP.atan_fin (r : ℝ) : FP.atan (.fin r) = .fin (Real.arctan r) := rfl

theorem FP.toRadians_fin (a : ℝ) :
    FP.toRadians (.fin a) = .fin (a * (Real.pi / 180)) := rfl

theorem FP.toDegrees_fin (a : ℝ) :
    FP.toDegrees (.fin a) = .fin (a * (180 / Real.pi)) := rfl

theorem fp2u32_natCast (k : ℕ) (hk : k < 2 ^ 32) : fp2u32 (.fin (k : ℝ)) = k := by
  have hk' : k ≤ 2 ^ 32 - 1 := by omega
  simp [fp2u32, Nat.floor_natCast, min_eq_left hk']
  omega

theorem cos_arctan_ne_zero (a : ℝ) : Real.cos (Real.arctan a) ≠ 0 :=
  (Real.cos_arctan_pos a).ne'

/-- The inverse Gudermannian identity behind the round trip:
`tan (arctan (sinh t)) + 1 / cos (arctan (sinh t)) = sinh t + cosh t = exp t`. -/
theorem sinh_add_inv_cos_arctan_sinh (t : ℝ) :
    Real.sinh t + 1 / Real.cos (Real.arctan (Real.sinh t)) = Real.exp t := by
  rw [Real.cos_arctan, one_div_one_div,
    show (1 : ℝ) + Real.sinh t ^ 2 = Real.cosh t ^ 2 from (Real.cosh_sq' t).symm,
    Real.sqrt_sq (Real.cosh_pos t).le]
  exact Real.sinh_add_cosh t

/-- Converting degrees back to radians cancels exactly in the real model. -/
theorem mul_deg_mul_rad (a : ℝ) : a * (180 / Real.pi) * (Real.pi / 180) = a := by
  field_simp

/-- Claim C1: for every zoom `z` in `[0, 20]` and every tile `(x, y)`
with `0 ≤ x, y < 2^z`, applying `tile2lonlat x y z` and then
`lonlat2tile` on the resulting longitude and latitude at the same zoom
`z` returns exactly `(x, y)`. -/
theorem lonlat2tile_tile2lonlat_roundtrip (x y z : ℕ) (hz : z ≤ 20)
    (hx : x < 2 ^ z) (hy : y < 2 ^ z) :
    lonlat2tile (tile2lonlat x y z).1 (tile2lonlat x y z).2 z = (x, y) := by
  have hn : (0 : ℝ) < 2 ^ z := by positivity
  have hzle : (2 : ℕ) ^ z ≤ 2 ^ 20 := Nat.pow_le_pow_right (by norm_num) hz
  have hpow : (2 : ℕ) ^ 20 < 2 ^ 32 := by norm_num
  have hx32 : x < 2 ^ 32 := by omega
  have hy32 : y < 2 ^ 32 := by omega
  have hlon : (tile2lonlat x y z).1 = FP.fin ((x : ℝ) / 2 ^ z * 360 - 180) := by
    simp only [tile2lonlat, FP.div_fin_fin _ _ hn.ne', FP.mul_fin_fin, FP.sub_fin_fin]
  have hlat : (tile2lonlat x y z).2
      = FP.fin (Real.arctan (Real.sinh (Real.pi * (1 - 2 * (y : ℝ) / 2 ^ z)))
          * (180 / Real.pi)) := by
    simp only [tile2lonlat, FP.mul_fin_fin, FP.div_fin_fin _ _ hn.ne', FP.sub_fin_fin,
      FP.sinh_fin, FP.atan_fin, FP.toDegrees_fin]
  have hX : ((x : ℝ) / 2 ^ z * 360 - 180 + 180) / 360 * 2 ^ z = (x : ℝ) := by
    field_simp
    ring
  have hY : (1 - Real.pi * (1 - 2 * (y : ℝ) / 2 ^ z) / Real.pi) / 2 * 2 ^ z = (y : ℝ) := by
    rw [mul_comm Real.pi (1 - 2 * (y : ℝ) / 2 ^ z), mul_div_assoc,
      div_self Real.pi_ne_zero, mul_one]
    field_simp
    ring
  rw [hlon, hlat]
  simp only [lonlat2tile, FP.toRadians_fin, mul_deg_mul_rad, FP.tan_fin, Real.tan_arctan,
    FP.cos_fin, FP.add_fin_fin, FP.sub_fin_fin, FP.mul_fin_fin, FP.div_fin_fin,
    cos_arctan_ne_zero, Real.pi_ne_zero, hn.ne', ne_eq, OfNat.ofNat_ne_zero,
    not_false_eq_true, sinh_add_inv_cos_arctan_sinh, FP.ln_fin_pos, Real.exp_pos,
    Real.log_exp, hX, hY, fp2u32_natCast x hx32, fp2u32_natCast y hy32]

/-- Witness for claim C1 at the concrete tile `(0, 0)`, zoom `0`. -/
theorem lonlat2tile_tile2lonlat_roundtrip_witness :
    lonlat2tile (tile2lonlat 0 0 0).1 (tile2lonlat 0 0 0).2 0 = (0, 0) :=
  lonlat2tile_tile2lonlat_roundtrip 0 0 0 (by decide) (by decide) (by decide)

/-- Claim C7 (the edge case the crate's tests pin down): evaluating the
code at `(+∞, -∞, zoom 0)` under Rust's defined saturating `as u32`
cast yields `(u32::MAX, 0) = (4294967295, 0)`: the longitude path
propagates `+∞`, which the cast clamps to `u32::MAX`, while the
latitude path produces NaN, which the cast sends to `0`.  This
contradicts the `(0, 0)` asserted by the claim and by the crate's own
doctest and unit test. -/
theorem lonlat2tile_inf_ninf_zero :
    lonlat2tile (FP.inf true) (FP.inf false) 0 = (4294967295, 0) := by
  have h : (0 : ℝ) < Real.pi / 180 := by positivity
  norm_num [lonlat2tile, FP.toRadians, FP.mul, FP.tan, FP.cos, FP.ln, FP.add, FP.div,
    FP.sub, FP.neg, fp2u32, h, h.ne']

/-- Claim C9: all four operations are deterministic (referentially
transparent): two calls to the same operation with equal argument
tuples return equal results — the output depends only on the
arguments. -/
theorem operations_deterministic (p q : FP × FP × ℕ) (hpq : p = q)
    (t u : ℕ × ℕ × ℕ) (htu : t = u) (a b : ℕ × ℕ) (hab : a = b)
    (c d : ℕ × ℕ) (hcd : c = d) :
    lonlat2tile p.1 p.2.1 p.2.2 = lonlat2tile q.1 q.2.1 q.2.2 ∧
    tile2lonlat t.1 t.2.1 t.2.2 = tile2lonlat u.1 u.2.1 u.2.2 ∧
    zoom_in a.1 a.2 = zoom_in b.1 b.2 ∧
    zoom_out c.1 c.2 = zoom_out d.1 d.2 := by
  subst hpq; subst htu; subst hab; subst hcd
  exact ⟨rfl, rfl, rfl, rfl⟩

/-- Witness for claim C9 at concrete equal argument tuples. -/
theorem operations_deterministic_witness :
    lonlat2tile (FP.fin 0) (FP.fin 0) 0 = lonlat2tile (FP.fin 0) (FP.fin 0) 0 ∧
    tile2lonlat 0 0 0 = tile2lonlat 0 0 0 ∧
    zoom_in 1 1 = zoom_in 1 1 ∧
    zoom_out 5 7 = zoom_out 5 7 :=
  operations_deterministic (FP.fin 0, FP.fin 0, 0) (FP.fin 0, FP.fin 0, 0) rfl
    (0, 0, 0) (0, 0, 0) rfl (1, 1) (1, 1) rfl (5, 7) (5, 7) rfl

/-- Claim C10: for every `u32` tile `(x, y)` and every zoom in
`[0, 255]`, the latitude returned by `tile2lonlat` is a finite value in
`[-90, 90]` (the arctangent of a sinh stays within `±π/2` radians);
the longitude, by contrast, is not confined to `[-180, 180]`:
`tile2lonlat 2 0 0` already has longitude `540`. -/
theorem tile2lonlat_lat_in_range (x y z : ℕ) (hx : x < 2 ^ 32) (hy : y < 2 ^ 32)
    (hz : z ≤ 255) :
    (∃ lat : ℝ, (tile2lonlat x y z).2 = FP.fin lat ∧ -90 ≤ lat ∧ lat ≤ 90) ∧
    (tile2lonlat 2 0 0).1 = FP.fin 540 := by
  have hn : ((2 : ℝ) ^ z) ≠ 0 := by positivity
  have hp : (0 : ℝ) < 180 / Real.pi := by positivity
  constructor
  · refine ⟨Real.arctan (Real.sinh (Real.pi * (1 - 2 * (y : ℝ) / 2 ^ z))) * (180 / Real.pi),
      ?_, ?_, ?_⟩
    · simp [tile2lonlat, FP.toDegrees, FP.mul_fin_fin, FP.atan_fin, FP.sinh_fin,
        FP.sub_fin_fin, FP.div_fin_fin _ _ hn, FP.mul]
    · have h1 : -(Real.pi / 2) < Real.arctan (Real.sinh (Real.pi * (1 - 2 * (y : ℝ) / 2 ^ z))) :=
        Real.neg_pi_div_two_lt_arctan _
      have h2 : -(Real.pi / 2) * (180 / Real.pi) = -90 := by
        field_simp
        ring
      calc (-90 : ℝ) = -(Real.pi / 2) * (180 / Real.pi) := h2.symm
        _ ≤ _ := mul_le_mul_of_nonneg_right h1.le hp.le
    · have h1 : Real.arctan (Real.sinh (Real.pi * (1 - 2 * (y : ℝ) / 2 ^ z))) < Real.pi / 2 :=
        Real.arctan_lt_pi_div_two _
      have h2 : Real.pi / 2 * (180 / Real.pi) = 90 := by
        field_simp
        ring
      calc Real.arctan (Real.sinh (Real.pi * (1 - 2 * (y : ℝ) / 2 ^ z))) * (180 / Real.pi)
          ≤ Real.pi / 2 * (180 / Real.pi) := mul_le_mul_of_nonneg_right h1.le hp.le
        _ = 90 := h2
  · norm_num [tile2lonlat, FP.toDegrees, FP.mul, FP.div, FP.sub, FP.neg, FP.add]

/-- Witness for claim C10 at the concrete tile `(0, 0)`, zoom `0`. -/
theorem tile2lonlat_lat_in_range_witness :
    (∃ lat : ℝ, (tile2lonlat 0 0 0).2 = FP.fin lat ∧ -90 ≤ lat ∧ lat ≤ 90) ∧
    (tile2lonlat 2 0 0).1 = FP.fin 540 :=
  tile2lonlat_lat_in_range 0 0 0 (by decide) (by decide) (by decide)

end SlippyMap
